import Mathlib

/-!
Shallow embedding of the audio-file-speed-control add-on
(`src/audio/processor.py`, `src/audio/detector.py`,
`src/core/card_processor.py`).

Modelling conventions:
* Python strings are modelled as `List Char`; Python floats as exact
  rationals `ℚ` (the add-on only manipulates one-decimal speed values,
  where binary floating point and exact rationals agree after the
  one-decimal formatting the code performs).
* Filesystem access (`os.path.exists`), the external FFmpeg process and
  Anki's note store (`mw.col`) are passed in explicitly as functions /
  association lists, so the control flow of the source is kept while the
  environment is a parameter.
-/

set_option maxHeartbeats 1000000

namespace AudioSpeed

/-- The `while remaining > 2.0` loop of `build_atempo_filter`
(`src/audio/processor.py` lines 85-89).  Returns the list of `2.0` stages
emitted by the loop together with the final value of `remaining`. -/
def atempoLoop (r : ℚ) : List ℚ × ℚ :=
  if h : 2 < r then
    let p := atempoLoop (r / 2)
    (2 :: p.1, p.2)
  else ([], r)
termination_by (⌈r⌉).toNat
decreasing_by
  have hle : r ≤ (⌈r⌉ : ℚ) := Int.le_ceil r
  have h2 : ⌈r / 2⌉ ≤ ⌈r⌉ - 1 := by
    rw [Int.ceil_le]
    push_cast
    linarith
  have h3 : (2 : ℤ) < ⌈r⌉ := by
    rw [Int.lt_ceil]
    exact_mod_cast h
  omega

/-- Numeric stages of the comma-joined atempo chain built by
`build_atempo_filter` (`src/audio/processor.py` lines 76-97).  Each stage
is rendered as `atempo=<v>` in the source and the pieces are joined with
`","`; only the stage values are modelled, so zero stages corresponds to
the empty filter string. -/
def build_atempo_filter (speed : ℚ) : List ℚ :=
  if 1/2 ≤ speed ∧ speed ≤ 2 then [speed]
  else
    let p := atempoLoop speed
    if 1/2 ≤ p.2 then p.1 ++ [p.2] else p.1

lemma atempoLoop_two : atempoLoop 2 = ([], 2) := by
  rw [atempoLoop]
  norm_num

lemma atempoLoop_four : atempoLoop 4 = ([2], 2) := by
  rw [atempoLoop]
  norm_num [atempoLoop_two]

lemma build_atempo_filter_four : build_atempo_filter 4 = [2, 2] := by
  rw [build_atempo_filter]
  norm_num [atempoLoop_four]

/-- C1 (counterexample): at `speed = 4.0` the filter-chain planner does
not produce the three stages `[2.0, 2.0, 1.0]` the spec describes. -/
theorem c1_cex_four_stages : build_atempo_filter 4 ≠ [2, 2, 1] := by
  rw [build_atempo_filter_four]
  decide

/-- C1 (amended): for `speed = 4.0` the planner produces exactly two
stages `[2.0, 2.0]`: the reduction loop emits `2.0` once (remaining
becomes `2.0`, and the strict `remaining > 2.0` guard then fails), and
because the final remaining `2.0` is `≥ 0.5` a last stage `2.0` is
appended — two stages total. -/
theorem c1_thm_four_stages : build_atempo_filter 4 = [2, 2] :=
  build_atempo_filter_four

/-- C10: for every positive speed strictly below `0.5` the filter-chain
builder returns an empty chain (zero stages, hence the joined filter
string is empty): the input is neither rejected nor handled by a halving
chain. -/
theorem c10_thm_below_half_empty (q : ℚ) (h0 : 0 < q) (hh : q < 1/2) :
    build_atempo_filter q = [] := by
  have hloop : atempoLoop q = ([], q) := by
    rw [atempoLoop]
    have : ¬ 2 < q := by linarith
    simp [this]
  rw [build_atempo_filter]
  have h1 : ¬ (1/2 ≤ q ∧ q ≤ 2) := by
    rintro ⟨h2, _⟩
    linarith
  simp only [h1, if_false, hloop]
  have h2 : ¬ (1/2 : ℚ) ≤ q := by linarith
  simp only [if_neg h2]

/-- C10 witness at the concrete speed `1/4`. -/
theorem c10_witness :
    (0 : ℚ) < 1/4 ∧ (1/4 : ℚ) < 1/2 ∧ build_atempo_filter (1/4) = [] :=
  ⟨by norm_num, by norm_num, c10_thm_below_half_empty (1/4) (by norm_num) (by norm_num)⟩

/-! ### Character classes, scanning and number formatting -/

/-- Character class `[0-9]` (the `\d` of `SPEED_PATTERN`, ASCII). -/
def isDigitCh (c : Char) : Bool := 48 ≤ c.toNat && c.toNat ≤ 57

/-- Character class `[a-zA-Z0-9]` of `SPEED_PATTERN`. -/
def isAlnumCh (c : Char) : Bool :=
  (65 ≤ c.toNat && c.toNat ≤ 90) || (97 ≤ c.toNat && c.toNat ≤ 122) || isDigitCh c

/-- Longest prefix of the list whose characters satisfy `p`, together with
the rest — the maximal-run scanning primitive used to model the anchored
regex searches of `src/audio/detector.py`. -/
def spanP (p : Char → Bool) : List Char → List Char × List Char
  | [] => ([], [])
  | c :: rest =>
    if p c then
      let s := spanP p rest
      (c :: s.1, s.2)
    else ([], c :: rest)

/-- Numeric value of a string of decimal digits. -/
def digitsVal (ds : List Char) : ℕ :=
  ds.foldl (fun acc c => 10 * acc + (c.toNat - 48)) 0

/-- Decimal digits of `m`, most significant first (`fuel`-bounded division
loop; any `fuel ≥ m` yields the digits). -/
def natToCharsAux : ℕ → ℕ → List Char
  | 0, _ => []
  | fuel + 1, m =>
    if m = 0 then [] else natToCharsAux fuel (m / 10) ++ [Nat.digitChar (m % 10)]

/-- Decimal representation of a natural number. -/
def natToChars (m : ℕ) : List Char := if m = 0 then ['0'] else natToCharsAux m m

/-- Python's `f"{speed:.1f}"` on a nonnegative speed: the decimal digits of
`round(10 * speed)` with a decimal point before the last digit.  Rounding
of exact halves is modelled as round-half-up; CPython rounds the nearest
binary double to even, which agrees except on exact two-decimal halves. -/
def fmt1 (speed : ℚ) : List Char :=
  let n := (round (10 * speed)).toNat
  natToChars (n / 10) ++ '.' :: [Nat.digitChar (n % 10)]

/-- Value of the float literal `d1.d2` built from the digit groups of a
`SPEED_PATTERN` match (`float(match.group(1))`, modelled exactly). -/
def groupsVal (d1 d2 : List Char) : ℚ :=
  (digitsVal d1 : ℚ) + (digitsVal d2 : ℚ) / 10 ^ d2.length

/-! ### The detector (`src/audio/detector.py`) -/

/-- `os.path.splitext` on a plain media filename (no directory
separators): split at the last dot, unless every character before that
dot is itself a dot. -/
def splitext (name : List Char) : List Char × List Char :=
  match spanP (fun c => !(c = '.')) name.reverse with
  | (_, []) => (name, [])
  | (revAfter, _ :: revBefore) =>
    if revBefore.any (fun c => !(c = '.')) then
      (revBefore.reverse, '.' :: revAfter.reverse)
    else (name, [])

/-- Search for `SPEED_PATTERN = _(\d+\.\d+)x\.([a-zA-Z0-9]+)$`
(`src/audio/detector.py` line 16) by scanning the reversed filename.
Returns `(text before the match, first digit group, second digit group,
extension group)`, each in source order.  Because the pattern is anchored
at the end and its trailing group excludes `.` and `_`, the match, when it
exists, is unique, and maximal-run scanning from the end finds it. -/
def findSpeedSuffixRev (rev : List Char) :
    Option (List Char × List Char × List Char × List Char) :=
  match spanP isAlnumCh rev with
    | (eR, '.' :: 'x' :: r2) =>
      if eR = [] then none
      else
        match spanP isDigitCh r2 with
        | (d2R, '.' :: r3) =>
          if d2R = [] then none
          else
            match spanP isDigitCh r3 with
            | (d1R, '_' :: preR) =>
              if d1R = [] then none
              else some (preR.reverse, d1R.reverse, d2R.reverse, eR.reverse)
            | _ => none
        | _ => none
    | _ => none

/-- `parse_speed_from_filename` (`src/audio/detector.py` lines 55-68):
extract the speed multiplier from a trailing `_<d.d>x.<ext>` suffix.
`float` on a matched group never raises, so the `ValueError` branch is
dead; the float value is modelled exactly. -/
def parse_speed_from_filename (filename : List Char) : Option ℚ :=
  match findSpeedSuffixRev filename.reverse with
  | some (_, d1, d2, _) => some (groupsVal d1 d2)
  | none => none

/-- The `is_processed` flag computed by `detect_audio_in_cards`
(`src/audio/detector.py` lines 104-105): a reference is classified as
already transformed exactly if `parse_speed_from_filename` returns a
value (`existing_speed is not None`). -/
def audioIsProcessed (filename : List Char) : Bool :=
  (parse_speed_from_filename filename).isSome

/-- `SUPPORTED_FORMATS` (`src/audio/detector.py` line 19). -/
def SUPPORTED_FORMATS : List (List Char) :=
  [".mp3".data, ".wav".data, ".ogg".data, ".m4a".data, ".mp4".data, ".webm".data]

/-- `is_supported_format` (`src/audio/detector.py` lines 50-53):
lower-case the filename, take its extension and test membership. -/
def is_supported_format (filename : List Char) : Bool :=
  SUPPORTED_FORMATS.contains (splitext (filename.map Char.toLower)).2

/-- The `base` computed by `generate_speed_filename`
(`src/audio/detector.py` lines 134-144): the split-off base, or, when the
whole filename matches `SPEED_PATTERN`, its slice before the match
start. -/
def genBase (original : List Char) : List Char :=
  match findSpeedSuffixRev original.reverse with
  | some (pre, _, _, _) => pre
  | none => (splitext original).1

/-- `generate_speed_filename` (`src/audio/detector.py` lines 129-146):
split off the extension, drop an existing speed suffix (keeping the slice
of the original filename before the match start), and insert
`_<speed:.1f>x` before the extension. -/
def generate_speed_filename (original : List Char) (speed : ℚ) : List Char :=
  genBase original ++ '_' :: (fmt1 speed ++ 'x' :: (splitext original).2)

/-- Declarative reading of the spec's classification clause: the filename
carries a trailing `_<digits>.<digits>x` suffix immediately before a
nonempty alphanumeric extension. -/
def HasSpeedSuffix (name : List Char) : Prop :=
  ∃ a d1 d2 e, name = a ++ '_' :: (d1 ++ '.' :: (d2 ++ 'x' :: '.' :: e)) ∧
    d1 ≠ [] ∧ d2 ≠ [] ∧ e ≠ [] ∧
    (∀ c ∈ d1, isDigitCh c = true) ∧ (∀ c ∈ d2, isDigitCh c = true) ∧
    (∀ c ∈ e, isAlnumCh c = true)

/-! ### Lemmas: scanning, digits, lower-casing -/

lemma spanP_append (p : Char → Bool) (xs : List Char) (y : Char) (ys : List Char)
    (hxs : ∀ c ∈ xs, p c = true) (hy : p y = false) :
    spanP p (xs ++ y :: ys) = (xs, y :: ys) := by
  induction xs with
  | nil => simp [spanP, hy]
  | cons c rest ih =>
    have hc : p c = true := hxs c (by simp)
    have hrest : ∀ d ∈ rest, p d = true := fun d hd => hxs d (by simp [hd])
    simp [spanP, hc, ih hrest]

lemma spanP_parts_eq (p : Char → Bool) (l : List Char) :
    (spanP p l).1 ++ (spanP p l).2 = l := by
  induction l with
  | nil => rfl
  | cons c rest ih =>
    by_cases hc : p c = true
    · simp [spanP, hc, ih]
    · simp [spanP, Bool.eq_false_iff.mpr hc]

lemma spanP_take_all (p : Char → Bool) (l : List Char) :
    ∀ c ∈ (spanP p l).1, p c = true := by
  induction l with
  | nil => simp [spanP]
  | cons c rest ih =>
    by_cases hc : p c = true
    · simp only [spanP, hc, if_true]
      intro d hd
      rcases List.mem_cons.mp hd with h | h
      · subst h; exact hc
      · exact ih d h
    · simp [spanP, Bool.eq_false_iff.mpr hc]

lemma digitChar_isDigit {d : ℕ} (h : d < 10) : isDigitCh (Nat.digitChar d) = true := by
  interval_cases d <;> decide

lemma digitChar_toNat {d : ℕ} (h : d < 10) : (Nat.digitChar d).toNat - 48 = d := by
  interval_cases d <;> decide

lemma natToCharsAux_digits (fuel : ℕ) : ∀ m, ∀ c ∈ natToCharsAux fuel m, isDigitCh c = true := by
  induction fuel with
  | zero => intro m c hc; simp [natToCharsAux] at hc
  | succ fuel ih =>
    intro m c hc
    rw [natToCharsAux] at hc
    split at hc
    · simp at hc
    · rcases List.mem_append.mp hc with h | h
      · exact ih _ c h
      · have hd : c = Nat.digitChar (m % 10) := by simpa using h
        subst hd
        exact digitChar_isDigit (Nat.mod_lt _ (by norm_num))

lemma natToChars_digits (m : ℕ) : ∀ c ∈ natToChars m, isDigitCh c = true := by
  unfold natToChars
  split
  · intro c hc
    have : c = '0' := by simpa using hc
    subst this
    decide
  · exact natToCharsAux_digits m m

lemma natToChars_ne_nil (m : ℕ) : natToChars m ≠ [] := by
  unfold natToChars
  split
  · simp
  · rename_i hm
    cases m with
    | zero => exact absurd rfl hm
    | succ k =>
      rw [natToCharsAux]
      simp [hm]

lemma digitsVal_snoc (xs : List Char) (c : Char) :
    digitsVal (xs ++ [c]) = 10 * digitsVal xs + (c.toNat - 48) := by
  simp [digitsVal, List.foldl_append]

lemma digitsVal_natToCharsAux (fuel : ℕ) : ∀ m, m ≤ fuel → digitsVal (natToCharsAux fuel m) = m := by
  induction fuel with
  | zero =>
    intro m hm
    have : m = 0 := by omega
    subst this
    rfl
  | succ fuel ih =>
    intro m hm
    rw [natToCharsAux]
    split
    · rename_i h0
      subst h0
      rfl
    · rename_i h0
      have hlt : m / 10 < m := Nat.div_lt_self (by omega) (by norm_num)
      rw [digitsVal_snoc, ih _ (by omega), digitChar_toNat (Nat.mod_lt _ (by norm_num))]
      omega

lemma digitsVal_natToChars (m : ℕ) : digitsVal (natToChars m) = m := by
  unfold natToChars
  split
  · rename_i h; subst h; rfl
  · exact digitsVal_natToCharsAux m m le_rfl

lemma isAlnumCh_of_isDigitCh {c : Char} (h : isDigitCh c = true) : isAlnumCh c = true := by
  simp [isAlnumCh, h]

lemma not_dot_of_isAlnumCh {c : Char} (h : isAlnumCh c = true) : ¬ c = '.' := by
  intro he
  subst he
  exact absurd h (by decide)

lemma toNat_inj {c d : Char} (h : c.toNat = d.toNat) : c = d :=
  Char.ext (UInt32.toNat.inj h)

lemma toLower_toNat (c : Char) :
    (Char.toLower c).toNat = if 65 ≤ c.toNat ∧ c.toNat ≤ 90 then c.toNat + 32 else c.toNat := by
  simp only [Char.toLower]
  split
  · rename_i h
    have hv : (c.toNat + 32).isValidChar := by
      left
      have := h.2
      omega
    rw [Char.ofNat, dif_pos hv]
    rfl
  · rfl

lemma toLower_eq_dot_iff (c : Char) : Char.toLower c = '.' ↔ c = '.' := by
  constructor
  · intro h
    have h2 : (Char.toLower c).toNat = 46 := by rw [h]; rfl
    rw [toLower_toNat] at h2
    split at h2
    · omega
    · exact toNat_inj h2
  · intro h
    subst h
    rfl

lemma isAlnumCh_of_toLower {c : Char} (h : isAlnumCh (Char.toLower c) = true) :
    isAlnumCh c = true := by
  have ht := toLower_toNat c
  simp only [isAlnumCh, isDigitCh, Bool.or_eq_true, Bool.and_eq_true, decide_eq_true_eq] at h ⊢
  split at ht <;> omega

lemma spanP_map_toLower (l : List Char) :
    spanP (fun c => !(c = '.')) (l.map Char.toLower)
      = ((spanP (fun c => !(c = '.')) l).1.map Char.toLower,
         (spanP (fun c => !(c = '.')) l).2.map Char.toLower) := by
  induction l with
  | nil => rfl
  | cons c rest ih =>
    by_cases hc : c = '.'
    · subst hc
      have hl : Char.toLower '.' = '.' := rfl
      simp [spanP, hl]
    · have h2 : ¬ Char.toLower c = '.' := fun h => hc ((toLower_eq_dot_iff c).mp h)
      simp [spanP, hc, h2, ih]

lemma any_map_toLower_dot (l : List Char) :
    (l.map Char.toLower).any (fun c => !(c = '.')) = l.any (fun c => !(c = '.')) := by
  induction l with
  | nil => rfl
  | cons c rest ih =>
    by_cases hc : c = '.'
    · subst hc
      have hl : Char.toLower '.' = '.' := rfl
      simp [hl, ih]
    · have h2 : ¬ Char.toLower c = '.' := fun h => hc ((toLower_eq_dot_iff c).mp h)
      simp [hc, h2]

lemma splitext_map_toLower (f : List Char) :
    splitext (f.map Char.toLower)
      = ((splitext f).1.map Char.toLower, (splitext f).2.map Char.toLower) := by
  unfold splitext
  rw [← List.map_reverse, spanP_map_toLower]
  cases hsp : spanP (fun c => !(c = '.')) f.reverse with
  | mk revAfter rest =>
    cases rest with
    | nil => simp
    | cons d revBefore =>
      simp only [List.map_cons]
      rw [any_map_toLower_dot]
      by_cases ha : revBefore.any (fun c => !(c = '.')) = true
      · rw [if_pos ha, if_pos ha]
        simp [List.map_reverse]
      · rw [if_neg ha, if_neg ha]
        simp

lemma ext_of_map_toLower {l tail : List Char} (h : l.map Char.toLower = '.' :: tail) :
    ∃ e, l = '.' :: e ∧ e.map Char.toLower = tail := by
  cases l with
  | nil => simp at h
  | cons c rest =>
    simp only [List.map_cons, List.cons.injEq] at h
    obtain ⟨h1, h2⟩ := h
    exact ⟨rest, by rw [(toLower_eq_dot_iff c).mp h1], h2⟩

lemma supported_case {f ext : List Char} (hsp : (splitext f).2.map Char.toLower = ext)
    (tail : List Char) (he : ext = '.' :: tail) (hn : tail ≠ [])
    (ha : ∀ c ∈ tail, isAlnumCh c = true) :
    ∃ b e, splitext f = (b, '.' :: e) ∧ e ≠ [] ∧ (∀ c ∈ e, isAlnumCh c = true) := by
  subst he
  obtain ⟨e, he1, he2⟩ := ext_of_map_toLower hsp
  refine ⟨(splitext f).1, e, ?_, ?_, ?_⟩
  · rw [← he1]
  · intro h0
    subst h0
    simp at he2
    exact hn he2
  · intro c hc
    apply isAlnumCh_of_toLower
    apply ha
    rw [← he2]
    exact List.mem_map_of_mem _ hc

lemma supported_ext_shape {f : List Char} (h : is_supported_format f = true) :
    ∃ b e, splitext f = (b, '.' :: e) ∧ e ≠ [] ∧ (∀ c ∈ e, isAlnumCh c = true) := by
  unfold is_supported_format at h
  rw [splitext_map_toLower] at h
  simp only [SUPPORTED_FORMATS, List.contains_cons, List.contains_nil, Bool.or_eq_true,
    beq_iff_eq, Bool.or_false] at h
  rcases h with h | h | h | h | h | h
  · exact supported_case h _ rfl (by decide) (by decide)
  · exact supported_case h _ rfl (by decide) (by decide)
  · exact supported_case h _ rfl (by decide) (by decide)
  · exact supported_case h _ rfl (by decide) (by decide)
  · exact supported_case h _ rfl (by decide) (by decide)
  · exact supported_case h _ rfl (by decide) (by decide)

/-! ### Lemmas: the `SPEED_PATTERN` search and `generate_speed_filename` -/

lemma findSpeedSuffixRev_concrete (base d1 d2 e : List Char)
    (hd1 : ∀ c ∈ d1, isDigitCh c = true) (hd1n : d1 ≠ [])
    (hd2 : ∀ c ∈ d2, isDigitCh c = true) (hd2n : d2 ≠ [])
    (he : ∀ c ∈ e, isAlnumCh c = true) (hen : e ≠ []) :
    findSpeedSuffixRev ((base ++ '_' :: (d1 ++ '.' :: (d2 ++ 'x' :: '.' :: e))).reverse)
      = some (base, d1, d2, e) := by
  have heR : ∀ c ∈ e.reverse, isAlnumCh c = true := fun c hc => he c (List.mem_reverse.mp hc)
  have hd2R : ∀ c ∈ d2.reverse, isDigitCh c = true := fun c hc => hd2 c (List.mem_reverse.mp hc)
  have hd1R : ∀ c ∈ d1.reverse, isDigitCh c = true := fun c hc => hd1 c (List.mem_reverse.mp hc)
  have hrev : (base ++ '_' :: (d1 ++ '.' :: (d2 ++ 'x' :: '.' :: e))).reverse
      = e.reverse ++ '.' :: 'x' :: (d2.reverse ++ '.' :: (d1.reverse ++ '_' :: base.reverse)) := by
    simp
  rw [hrev]
  unfold findSpeedSuffixRev
  rw [spanP_append _ _ _ _ heR (by decide)]
  simp only
  rw [spanP_append _ _ _ _ hd2R (by decide)]
  simp only
  rw [spanP_append _ _ _ _ hd1R (by decide)]
  simp [hen, hd2n, hd1n]

lemma findSpeedSuffixRev_sound {rev pre d1 d2 e : List Char}
    (h : findSpeedSuffixRev rev = some (pre, d1, d2, e)) :
    rev = e.reverse ++ '.' :: 'x' :: (d2.reverse ++ '.' :: (d1.reverse ++ '_' :: pre.reverse)) ∧
      d1 ≠ [] ∧ d2 ≠ [] ∧ e ≠ [] ∧
      (∀ c ∈ d1, isDigitCh c = true) ∧ (∀ c ∈ d2, isDigitCh c = true) ∧
      (∀ c ∈ e, isAlnumCh c = true) := by
  unfold findSpeedSuffixRev at h
  split at h
  · rename_i eR r2 heq
    split at h
    · exact absurd h (by simp)
    · rename_i heRn
      split at h
      · rename_i d2R r3 heq2
        split at h
        · exact absurd h (by simp)
        · rename_i hd2Rn
          split at h
          · rename_i d1R preR heq3
            split at h
            · exact absurd h (by simp)
            · rename_i hd1Rn
              rw [Option.some.injEq] at h
              obtain ⟨hp, hd1e, hd2e, hee⟩ :
                  preR.reverse = pre ∧ d1R.reverse = d1 ∧ d2R.reverse = d2 ∧
                    eR.reverse = e := by
                simpa [Prod.ext_iff] using h
              have hrev1 := spanP_parts_eq isAlnumCh rev
              rw [heq] at hrev1
              simp only at hrev1
              have hrev2 := spanP_parts_eq isDigitCh r2
              rw [heq2] at hrev2
              simp only at hrev2
              have hrev3 := spanP_parts_eq isDigitCh r3
              rw [heq3] at hrev3
              simp only at hrev3
              have haln := spanP_take_all isAlnumCh rev
              rw [heq] at haln
              simp only at haln
              have hdig2 := spanP_take_all isDigitCh r2
              rw [heq2] at hdig2
              simp only at hdig2
              have hdig1 := spanP_take_all isDigitCh r3
              rw [heq3] at hdig1
              simp only at hdig1
              subst hp hd1e hd2e hee
              subst hrev3
              subst hrev2
              subst hrev1
              refine ⟨by simp, by simpa using hd1Rn, by simpa using hd2Rn,
                by simpa using heRn, ?_, ?_, ?_⟩
              · intro c hc
                exact hdig1 c (List.mem_reverse.mp hc)
              · intro c hc
                exact hdig2 c (List.mem_reverse.mp hc)
              · intro c hc
                exact haln c (List.mem_reverse.mp hc)
          · exact absurd h (by simp)
      · exact absurd h (by simp)
  · exact absurd h (by simp)

lemma splitext_snoc_ext (pre e : List Char)
    (he : ∀ c ∈ e, ¬ c = '.') (x : Char) (hx : ¬ x = '.') (hxp : x ∈ pre) :
    splitext (pre ++ '.' :: e) = (pre, '.' :: e) := by
  unfold splitext
  have hrev : (pre ++ '.' :: e).reverse = e.reverse ++ '.' :: pre.reverse := by simp
  have heR : ∀ c ∈ e.reverse, (fun c => !(c = '.')) c = true := by
    intro c hc
    simpa using he c (List.mem_reverse.mp hc)
  rw [hrev, spanP_append _ _ _ _ heR (by simp)]
  simp only
  rw [if_pos]
  · simp
  · refine List.any_eq_true.mpr ⟨x, List.mem_reverse.mpr hxp, by simpa using hx⟩

lemma generate_eq_shape (f : List Char) (s : ℚ) {b e : List Char}
    (hsp : splitext f = (b, '.' :: e)) :
    generate_speed_filename f s
      = genBase f ++ '_' :: (natToChars ((round (10 * s)).toNat / 10) ++ '.' ::
          ([Nat.digitChar ((round (10 * s)).toNat % 10)] ++ 'x' :: '.' :: e)) := by
  unfold generate_speed_filename
  rw [hsp]
  simp [fmt1]

lemma dc_digit (s : ℚ) :
    ∀ c ∈ [Nat.digitChar ((round (10 * s)).toNat % 10)], isDigitCh c = true := by
  intro c hc
  have hcc : c = Nat.digitChar ((round (10 * s)).toNat % 10) := by simpa using hc
  subst hcc
  exact digitChar_isDigit (Nat.mod_lt _ (by norm_num))

lemma generate_find (f : List Char) (s : ℚ) {b e : List Char}
    (hsp : splitext f = (b, '.' :: e)) (hen : e ≠ [])
    (he : ∀ c ∈ e, isAlnumCh c = true) :
    findSpeedSuffixRev (generate_speed_filename f s).reverse
      = some (genBase f, natToChars ((round (10 * s)).toNat / 10),
          [Nat.digitChar ((round (10 * s)).toNat % 10)], e) := by
  rw [generate_eq_shape f s hsp]
  exact findSpeedSuffixRev_concrete (genBase f) _ _ e
    (natToChars_digits _) (natToChars_ne_nil _) (dc_digit s) (by simp) he hen

lemma round_ten_nonneg {r : ℚ} (hr : 0 < r) : 0 ≤ round (10 * r) := by
  rw [round_eq]
  apply Int.floor_nonneg.mpr
  linarith

lemma generate_parse_val (f : List Char) (r : ℚ) {b e : List Char}
    (hsp : splitext f = (b, '.' :: e)) (hen : e ≠ [])
    (he : ∀ c ∈ e, isAlnumCh c = true) (hr : 0 < r) :
    parse_speed_from_filename (generate_speed_filename f r)
      = some (((round (10 * r) : ℤ) : ℚ) / 10) := by
  unfold parse_speed_from_filename
  rw [generate_find f r hsp hen he]
  simp only
  congr 1
  unfold groupsVal
  rw [digitsVal_natToChars]
  have hlt : (round (10 * r)).toNat % 10 < 10 := Nat.mod_lt _ (by norm_num)
  have hd : digitsVal [Nat.digitChar ((round (10 * r)).toNat % 10)]
      = (round (10 * r)).toNat % 10 := by
    show 10 * 0 + ((Nat.digitChar ((round (10 * r)).toNat % 10)).toNat - 48)
      = (round (10 * r)).toNat % 10
    rw [digitChar_toNat hlt]
    omega
  rw [hd]
  have hcast : ((round (10 * r) : ℤ) : ℚ) = ((round (10 * r)).toNat : ℚ) := by
    exact_mod_cast (Int.toNat_of_nonneg (round_ten_nonneg hr)).symm
  rw [hcast]
  have hdm := Nat.div_add_mod ((round (10 * r)).toNat) 10
  rw [List.length_singleton, pow_one, eq_div_iff (by norm_num : (10 : ℚ) ≠ 0)]
  have : (((round (10 * r)).toNat : ℚ))
      = 10 * (((round (10 * r)).toNat / 10 : ℕ) : ℚ) + (((round (10 * r)).toNat % 10 : ℕ) : ℚ) := by
    exact_mod_cast hdm.symm
  rw [this]
  ring

/-- C3: for every filename with a supported extension and every rate
`r > 0`, the detector classifies the generated filename as transformed and
parses back exactly the one-decimal rounding of `r`
(`generate_speed_filename` is a left inverse of
`parse_speed_from_filename` up to the one-decimal formatting). -/
theorem c3_thm_roundtrip (f : List Char) (r : ℚ)
    (hs : is_supported_format f = true) (hr : 0 < r) :
    audioIsProcessed (generate_speed_filename f r) = true ∧
      parse_speed_from_filename (generate_speed_filename f r)
        = some (((round (10 * r) : ℤ) : ℚ) / 10) := by
  obtain ⟨b, e, hsp, hen, he⟩ := supported_ext_shape hs
  have hv := generate_parse_val f r hsp hen he hr
  constructor
  · unfold audioIsProcessed
    rw [hv]
    rfl
  · exact hv

/-- C3 witness at `f = "a.mp3"`, `r = 1.2`. -/
theorem c3_witness :
    is_supported_format "a.mp3".data = true ∧ (0 : ℚ) < 6/5 ∧
      (audioIsProcessed (generate_speed_filename "a.mp3".data (6/5)) = true ∧
        parse_speed_from_filename (generate_speed_filename "a.mp3".data (6/5))
          = some (((round ((10 : ℚ) * (6/5)) : ℤ) : ℚ) / 10)) :=
  ⟨by decide, by norm_num, c3_thm_roundtrip "a.mp3".data (6/5) (by decide) (by norm_num)⟩

lemma genBase_of_find {x pre a b c : List Char}
    (h : findSpeedSuffixRev x.reverse = some (pre, a, b, c)) : genBase x = pre := by
  unfold genBase
  rw [h]

lemma generate_stable (f : List Char) (s t : ℚ) {b e : List Char}
    (hsp : splitext f = (b, '.' :: e)) (hen : e ≠ [])
    (he : ∀ c ∈ e, isAlnumCh c = true) :
    generate_speed_filename (generate_speed_filename f s) t
      = generate_speed_filename f t := by
  have hgb : genBase (generate_speed_filename f s) = genBase f :=
    genBase_of_find (generate_find f s hsp hen he)
  have hshape : generate_speed_filename f s
      = (genBase f ++ '_' :: (natToChars ((round (10 * s)).toNat / 10) ++ '.' ::
          ([Nat.digitChar ((round (10 * s)).toNat % 10)] ++ ['x']))) ++ '.' :: e := by
    rw [generate_eq_shape f s hsp]
    simp
  have hsp2 : splitext (generate_speed_filename f s)
      = (genBase f ++ '_' :: (natToChars ((round (10 * s)).toNat / 10) ++ '.' ::
          ([Nat.digitChar ((round (10 * s)).toNat % 10)] ++ ['x'])), '.' :: e) := by
    rw [hshape]
    exact splitext_snoc_ext _ e
      (fun c hc => not_dot_of_isAlnumCh (he c hc)) 'x' (by decide) (by simp)
  show genBase (generate_speed_filename f s) ++ '_' ::
      (fmt1 t ++ 'x' :: (splitext (generate_speed_filename f s)).2)
    = genBase f ++ '_' :: (fmt1 t ++ 'x' :: (splitext f).2)
  rw [hgb, hsp2, hsp]

/-- C4 (amended): for every filename with a supported audio extension,
applying `generate_speed_filename` twice with different rates never
leaves two speed suffixes: the suffix added first is stripped before the
new one is appended. -/
theorem c4_thm_no_double_suffix (f : List Char) (hs : is_supported_format f = true) :
    generate_speed_filename (generate_speed_filename f (6/5)) (3/2)
      = generate_speed_filename f (3/2) := by
  obtain ⟨b, e, hsp, hen, he⟩ := supported_ext_shape hs
  exact generate_stable f (6/5) (3/2) hsp hen he

/-- C4 witness at `f = "a.mp3"`. -/
theorem c4_witness :
    is_supported_format "a.mp3".data = true ∧
      generate_speed_filename (generate_speed_filename "a.mp3".data (6/5)) (3/2)
        = generate_speed_filename "a.mp3".data (3/2) :=
  ⟨by decide, c4_thm_no_double_suffix "a.mp3".data (by decide)⟩

lemma round_ten_sixFifths : round ((10 : ℚ) * (6/5)) = 12 := by
  norm_num [round_eq]

lemma round_ten_threeHalves : round ((10 : ℚ) * (3/2)) = 15 := by
  norm_num [round_eq]

lemma fmt1_sixFifths : fmt1 (6/5) = ['1', '.', '2'] := by
  unfold fmt1
  rw [round_ten_sixFifths]
  rfl

lemma fmt1_threeHalves : fmt1 (3/2) = ['1', '.', '5'] := by
  unfold fmt1
  rw [round_ten_threeHalves]
  rfl

lemma gen_a_sixFifths : generate_speed_filename "a".data (6/5) = "a_1.2x".data := by
  simp only [generate_speed_filename, genBase, fmt1_sixFifths,
    show findSpeedSuffixRev "a".data.reverse = none from by decide,
    show splitext "a".data = ("a".data, []) from by decide]
  rfl

lemma gen_a12_threeHalves :
    generate_speed_filename "a_1.2x".data (3/2) = "a_1_1.5x.2x".data := by
  simp only [generate_speed_filename, genBase, fmt1_threeHalves,
    show findSpeedSuffixRev "a_1.2x".data.reverse = none from by decide,
    show splitext "a_1.2x".data = ("a_1".data, ".2x".data) from by decide]
  rfl

lemma gen_a_threeHalves : generate_speed_filename "a".data (3/2) = "a_1.5x".data := by
  simp only [generate_speed_filename, genBase, fmt1_threeHalves,
    show findSpeedSuffixRev "a".data.reverse = none from by decide,
    show splitext "a".data = ("a".data, []) from by decide]
  rfl

/-- C4 (counterexample): for the extension-less filename `"a"` the claimed
equation fails: the first suffix is not stripped
(`a_1.2x` becomes `a_1_1.5x.2x`, not `a_1.5x`). -/
theorem c4_cex_no_extension :
    generate_speed_filename (generate_speed_filename "a".data (6/5)) (3/2)
      ≠ generate_speed_filename "a".data (3/2) := by
  rw [gen_a_sixFifths, gen_a12_threeHalves, gen_a_threeHalves]
  decide

/-- C9 (amended): detection classifies a reference as already transformed
exactly when its filename carries a trailing `_<digits>.<digits>x` suffix
immediately before a nonempty alphanumeric extension; the parsed rate is
only required to be a decimal literal, so a zero rate (e.g. `_0.0x`) is
also classified as transformed. -/
theorem c9_thm_classification (name : List Char) :
    audioIsProcessed name = true ↔ HasSpeedSuffix name := by
  constructor
  · intro h
    unfold audioIsProcessed parse_speed_from_filename at h
    rcases hf : findSpeedSuffixRev name.reverse with _ | ⟨pre, d1, d2, e⟩
    · rw [hf] at h
      simp at h
    · obtain ⟨hrev, hd1n, hd2n, hen, hd1, hd2, he⟩ := findSpeedSuffixRev_sound hf
      refine ⟨pre, d1, d2, e, ?_, hd1n, hd2n, hen, hd1, hd2, he⟩
      have h2 := congrArg List.reverse hrev
      simpa using h2
  · rintro ⟨a, d1, d2, e, hname, hd1n, hd2n, hen, hd1, hd2, he⟩
    subst hname
    unfold audioIsProcessed parse_speed_from_filename
    rw [findSpeedSuffixRev_concrete a d1 d2 e hd1 hd1n hd2 hd2n he hen]
    rfl

/-- C9 (counterexample): the filename `a_0.0x.mp3` has suffix rate `0.0`,
which is not positive, yet the detector classifies it as already
transformed (`is_processed` only checks that the parse is not `None`). -/
theorem c9_cex_zero_rate :
    audioIsProcessed "a_0.0x.mp3".data = true ∧
      parse_speed_from_filename "a_0.0x.mp3".data = some 0 := by
  have hfind : findSpeedSuffixRev "a_0.0x.mp3".data.reverse
      = some ("a".data, ['0'], ['0'], "mp3".data) := by decide
  have hval : parse_speed_from_filename "a_0.0x.mp3".data = some 0 := by
    unfold parse_speed_from_filename
    rw [hfind]
    simp only
    have h0 : digitsVal ['0'] = 0 := rfl
    simp [groupsVal, h0]
  refine ⟨?_, hval⟩
  unfold audioIsProcessed
  rw [hval]
  rfl

/-! ### The processor (`src/audio/processor.py`) -/

/-- `AudioFile` (`src/audio/detector.py` lines 22-31). -/
structure AudioFile where
  filename : List Char
  field_index : ℕ
  card_id : ℕ
  note_id : ℕ
  original_tag : List Char
  is_processed : Bool := false
  original_speed : Option ℚ := none
deriving DecidableEq

/-- `ProcessingResult` (`src/audio/processor.py` lines 14-20). -/
structure ProcessingResult where
  success : Bool
  original_file : List Char
  new_file : Option (List Char) := none
  error_message : Option (List Char) := none
deriving DecidableEq

/-- `BatchProcessingResult` (`src/audio/processor.py` lines 23-35). -/
structure BatchProcessingResult where
  successful : List ProcessingResult := []
  failed : List ProcessingResult := []
  total_processed : ℕ := 0
deriving DecidableEq

/-- `BatchProcessingResult.success_count` (lines 29-31). -/
def BatchProcessingResult.success_count (r : BatchProcessingResult) : ℕ :=
  r.successful.length

/-- `BatchProcessingResult.failure_count` (lines 33-35). -/
def BatchProcessingResult.failure_count (r : BatchProcessingResult) : ℕ :=
  r.failed.length

/-- `process_audio_file` (`src/audio/processor.py` lines 180-228), the
environment passed explicitly: `fs` models `os.path.exists`, `mediaDir`
the Anki media directory (so `os.path.join` is `mediaDir ++ "/" ++ name`),
and `transcode` the `(success, error)` outcome `process_audio_ffmpeg`
would produce if invoked.  The second component of the result counts the
invocations of the external FFmpeg process (0 or 1). -/
def process_audio_file (fs : List Char → Bool) (mediaDir : List Char)
    (transcode : Bool × Option (List Char)) (audio_file : AudioFile)
    (speed : ℚ) : ProcessingResult × ℕ :=
  if fs (mediaDir ++ '/' :: audio_file.filename) = false then
    ({ success := false, original_file := audio_file.filename,
       error_message := some ("File not found: ".data ++ audio_file.filename) }, 0)
  else
    if fs (mediaDir ++ '/' :: generate_speed_filename audio_file.filename speed) then
      ({ success := true, original_file := audio_file.filename,
         new_file := some (generate_speed_filename audio_file.filename speed) }, 0)
    else if transcode.1 then
      ({ success := true, original_file := audio_file.filename,
         new_file := some (generate_speed_filename audio_file.filename speed) }, 1)
    else
      ({ success := false, original_file := audio_file.filename,
         error_message := transcode.2 }, 1)

/-- First-seen deduplication in `process_audio_batch`
(`src/audio/processor.py` lines 269-274): the `unique_files` dict keyed by
filename keeps the first reference for each name, in insertion order.
`seen` accumulates the filenames already present. -/
def dedupFirst (seen : List (List Char)) : List AudioFile → List AudioFile
  | [] => []
  | af :: rest =>
    if seen.contains af.filename then dedupFirst seen rest
    else af :: dedupFirst (af.filename :: seen) rest

/-- The per-file loop of `process_audio_batch` (lines 276-293): `cancel n`
models the value of `cancel_check()` read at the start of iteration `n`,
and `transcodeOf` the FFmpeg outcome per filename.  Returns the
`successful` and `failed` lists in iteration order. -/
def batchLoop (fs : List Char → Bool) (mediaDir : List Char)
    (transcodeOf : List Char → Bool × Option (List Char)) (speed : ℚ)
    (cancel : ℕ → Bool) :
    ℕ → List AudioFile → List ProcessingResult × List ProcessingResult
  | _, [] => ([], [])
  | idx, af :: rest =>
    if cancel idx then ([], [])
    else
      let result := (process_audio_file fs mediaDir (transcodeOf af.filename) af speed).1
      let p := batchLoop fs mediaDir transcodeOf speed cancel (idx + 1) rest
      if result.success then (result :: p.1, p.2) else (p.1, result :: p.2)

/-- `process_audio_batch` (`src/audio/processor.py` lines 230-295).
`ffmpeg` models the result of `find_ffmpeg()` (which only inspects the
host system, lines 39-73).  When no binary resolves, every candidate
(duplicates included) is reported failed with `FFmpeg not found` and
nothing is attempted; otherwise the deduplicated candidates are processed
in first-seen order until cancellation. -/
def process_audio_batch (ffmpeg : Option (List Char))
    (fs : List Char → Bool) (mediaDir : List Char)
    (transcodeOf : List Char → Bool × Option (List Char))
    (cancel : ℕ → Bool)
    (audio_files : List AudioFile) (speed : ℚ) : BatchProcessingResult :=
  match ffmpeg with
  | none =>
    { successful := []
      failed := audio_files.map (fun af =>
        { success := false, original_file := af.filename,
          error_message := some "FFmpeg not found".data })
      total_processed := 0 }
  | some _ =>
    let p := batchLoop fs mediaDir transcodeOf speed cancel 0 (dedupFirst [] audio_files)
    { successful := p.1, failed := p.2,
      total_processed := p.1.length + p.2.length }

/-! ### Batch-processing claims -/

lemma process_audio_file_original (fs : List Char → Bool) (mediaDir : List Char)
    (transcode : Bool × Option (List Char)) (af : AudioFile) (speed : ℚ) :
    ((process_audio_file fs mediaDir transcode af speed).1).original_file = af.filename := by
  unfold process_audio_file
  repeat' split
  all_goals rfl

lemma dedupFirst_cons (seen : List (List Char)) (af : AudioFile) (rest : List AudioFile) :
    dedupFirst seen (af :: rest)
      = if seen.contains af.filename then dedupFirst seen rest
        else af :: dedupFirst (af.filename :: seen) rest := by
  rw [dedupFirst]

/-- A first reference to `a.mp3` (used in witnesses and counterexamples). -/
def afA : AudioFile :=
  { filename := "a.mp3".data, field_index := 0, card_id := 1, note_id := 1,
    original_tag := "[sound:a.mp3]".data }

/-- A second, distinct reference to the same file `a.mp3`. -/
def afA2 : AudioFile :=
  { filename := "a.mp3".data, field_index := 1, card_id := 2, note_id := 2,
    original_tag := "[sound:a.mp3]".data }

/-- A reference to `b.mp3`. -/
def afB : AudioFile :=
  { filename := "b.mp3".data, field_index := 0, card_id := 3, note_id := 3,
    original_tag := "[sound:b.mp3]".data }

/-- A reference to `c.mp3`. -/
def afC : AudioFile :=
  { filename := "c.mp3".data, field_index := 0, card_id := 4, note_id := 4,
    original_tag := "[sound:c.mp3]".data }

/-- C2 (counterexample): with no resolvable transcoder and two candidate
references to the same filename, the failure list has two entries — one
per candidate — while there is only one unique filename, so the failure
count does not equal the number of unique filenames. -/
theorem c2_cex_duplicate_failures :
    (process_audio_batch none (fun _ => false) ['m'] (fun _ => (false, none))
        (fun _ => false) [afA, afA2] 1).failed.length = 2 ∧
      (dedupFirst [] [afA, afA2]).length = 1 := by
  constructor
  · rfl
  · rfl

/-- C2 (amended): with no resolvable transcoder binary,
`process_audio_batch` over a non-empty candidate list returns zero
successes, zero attempted (`total_processed = 0`), and one failure tagged
`FFmpeg not found` per candidate reference — as many failures as
candidates (duplicates included), not as unique filenames. -/
theorem c2_thm_no_ffmpeg (audio_files : List AudioFile) (speed : ℚ)
    (fs : List Char → Bool) (mediaDir : List Char)
    (transcodeOf : List Char → Bool × Option (List Char)) (cancel : ℕ → Bool)
    (_hne : audio_files ≠ []) :
    (process_audio_batch none fs mediaDir transcodeOf cancel audio_files speed).successful = [] ∧
    (process_audio_batch none fs mediaDir transcodeOf cancel audio_files speed).total_processed = 0 ∧
    (process_audio_batch none fs mediaDir transcodeOf cancel audio_files speed).failed.length
        = audio_files.length ∧
    ∀ r ∈ (process_audio_batch none fs mediaDir transcodeOf cancel audio_files speed).failed,
      r.success = false ∧ r.error_message = some "FFmpeg not found".data := by
  refine ⟨rfl, rfl, by simp [process_audio_batch], ?_⟩
  intro r hr
  simp only [process_audio_batch, List.mem_map] at hr
  obtain ⟨af, _, haf⟩ := hr
  rw [← haf]
  exact ⟨rfl, rfl⟩

/-- C2 witness: one candidate, no transcoder. -/
theorem c2_witness :
    ([afA] : List AudioFile) ≠ [] ∧
    ((process_audio_batch none (fun _ => false) ['m'] (fun _ => (false, none))
          (fun _ => false) [afA] 1).successful = [] ∧
      (process_audio_batch none (fun _ => false) ['m'] (fun _ => (false, none))
          (fun _ => false) [afA] 1).total_processed = 0 ∧
      (process_audio_batch none (fun _ => false) ['m'] (fun _ => (false, none))
          (fun _ => false) [afA] 1).failed.length = ([afA] : List AudioFile).length ∧
      ∀ r ∈ (process_audio_batch none (fun _ => false) ['m'] (fun _ => (false, none))
          (fun _ => false) [afA] 1).failed,
        r.success = false ∧ r.error_message = some "FFmpeg not found".data) :=
  ⟨by simp, c2_thm_no_ffmpeg [afA] 1 (fun _ => false) ['m'] (fun _ => (false, none))
    (fun _ => false) (by simp)⟩

lemma batchLoop_perm_outcomes (fs : List Char → Bool) (mediaDir : List Char)
    (transcodeOf : List Char → Bool × Option (List Char)) (speed : ℚ) :
    ∀ (l : List AudioFile) (idx : ℕ),
      ((batchLoop fs mediaDir transcodeOf speed (fun _ => false) idx l).1 ++
        (batchLoop fs mediaDir transcodeOf speed (fun _ => false) idx l).2).Perm
        (l.map (fun af => (process_audio_file fs mediaDir (transcodeOf af.filename) af speed).1)) := by
  intro l
  induction l with
  | nil => intro idx; rfl
  | cons af rest ih =>
    intro idx
    rw [batchLoop]
    simp only [Bool.false_eq_true, if_false, List.map_cons]
    split
    · exact (ih (idx + 1)).cons _
    · exact (List.perm_middle.trans ((ih (idx + 1)).cons _))

lemma batchLoop_total (fs : List Char → Bool) (mediaDir : List Char)
    (transcodeOf : List Char → Bool × Option (List Char)) (speed : ℚ)
    (l : List AudioFile) (idx : ℕ) :
    ((batchLoop fs mediaDir transcodeOf speed (fun _ => false) idx l).1).length +
      ((batchLoop fs mediaDir transcodeOf speed (fun _ => false) idx l).2).length
      = l.length := by
  have h2 := (batchLoop_perm_outcomes fs mediaDir transcodeOf speed l idx).length_eq
  simpa using h2

/-- C6: `process_audio_batch` deduplicates by filename: on three candidate
references with filenames `a.mp3, a.mp3, b.mp3`, the unique list kept is
`[first a-reference, b-reference]` (stable first-seen order, first
reference wins), exactly two transcodes are attempted
(`total_processed = 2`), and the outcome for `a.mp3` appears exactly once
among the reported outcomes. -/
theorem c6_thm_dedup (ffpath : List Char) (fs : List Char → Bool) (mediaDir : List Char)
    (transcodeOf : List Char → Bool × Option (List Char)) (speed : ℚ)
    (a1 a2 b : AudioFile)
    (ha1 : a1.filename = "a.mp3".data) (ha2 : a2.filename = "a.mp3".data)
    (hb : b.filename = "b.mp3".data) :
    dedupFirst [] [a1, a2, b] = [a1, b] ∧
    (process_audio_batch (some ffpath) fs mediaDir transcodeOf (fun _ => false)
        [a1, a2, b] speed).total_processed = 2 ∧
    ((process_audio_batch (some ffpath) fs mediaDir transcodeOf (fun _ => false)
        [a1, a2, b] speed).successful ++
      (process_audio_batch (some ffpath) fs mediaDir transcodeOf (fun _ => false)
        [a1, a2, b] speed).failed).countP
          (fun r => r.original_file = "a.mp3".data) = 1 := by
  have hc2 : (["a.mp3".data] : List (List Char)).contains "a.mp3".data = true := by decide
  have hc3 : (["a.mp3".data] : List (List Char)).contains "b.mp3".data = false := by decide
  have hdedup : dedupFirst [] [a1, a2, b] = [a1, b] := by
    rw [dedupFirst_cons, ha1]
    simp only [List.contains_nil, Bool.false_eq_true, if_false]
    rw [dedupFirst_cons, ha2, hc2]
    simp only [if_true]
    rw [dedupFirst_cons, hb, hc3]
    simp only [Bool.false_eq_true, if_false]
    rfl
  refine ⟨hdedup, ?_, ?_⟩
  · show (batchLoop fs mediaDir transcodeOf speed (fun _ => false) 0
        (dedupFirst [] [a1, a2, b])).1.length +
      (batchLoop fs mediaDir transcodeOf speed (fun _ => false) 0
        (dedupFirst [] [a1, a2, b])).2.length = 2
    rw [hdedup, batchLoop_total]
    rfl
  · show ((batchLoop fs mediaDir transcodeOf speed (fun _ => false) 0
        (dedupFirst [] [a1, a2, b])).1 ++
      (batchLoop fs mediaDir transcodeOf speed (fun _ => false) 0
        (dedupFirst [] [a1, a2, b])).2).countP
          (fun r => r.original_file = "a.mp3".data) = 1
    rw [hdedup,
      (batchLoop_perm_outcomes fs mediaDir transcodeOf speed [a1, b] 0).countP_eq]
    simp only [List.map_cons, List.map_nil, List.countP_cons, List.countP_nil,
      process_audio_file_original, ha1, hb]
    norm_num
    decide

/-- C6 witness with three concrete references. -/
theorem c6_witness :
    afA.filename = "a.mp3".data ∧ afA2.filename = "a.mp3".data ∧
      afB.filename = "b.mp3".data ∧
    (dedupFirst [] [afA, afA2, afB] = [afA, afB] ∧
      (process_audio_batch (some "ffmpeg".data) (fun _ => true) ['m']
          (fun _ => (true, none)) (fun _ => false) [afA, afA2, afB] 1).total_processed = 2 ∧
      ((process_audio_batch (some "ffmpeg".data) (fun _ => true) ['m']
          (fun _ => (true, none)) (fun _ => false) [afA, afA2, afB] 1).successful ++
        (process_audio_batch (some "ffmpeg".data) (fun _ => true) ['m']
          (fun _ => (true, none)) (fun _ => false) [afA, afA2, afB] 1).failed).countP
            (fun r => r.original_file = "a.mp3".data) = 1) :=
  ⟨rfl, rfl, rfl, c6_thm_dedup "ffmpeg".data (fun _ => true) ['m']
    (fun _ => (true, none)) 1 afA afA2 afB rfl rfl rfl⟩

/-- C7: if the cancellation check reads `false` at the start of the first
iteration and `true` at the start of the second, a batch of three unique
candidates reports exactly one outcome (success or failure, for the first
file only), `total_processed = 1` counts only the attempted item, and the
two never-started items are absent from the outcome. -/
theorem c7_thm_cancel (ffpath : List Char) (fs : List Char → Bool) (mediaDir : List Char)
    (transcodeOf : List Char → Bool × Option (List Char)) (speed : ℚ)
    (f1 f2 f3 : AudioFile) (cancel : ℕ → Bool)
    (h12 : f1.filename ≠ f2.filename) (h13 : f1.filename ≠ f3.filename)
    (h23 : f2.filename ≠ f3.filename)
    (hc0 : cancel 0 = false) (hc1 : cancel 1 = true) :
    ((process_audio_batch (some ffpath) fs mediaDir transcodeOf cancel
        [f1, f2, f3] speed).successful ++
      (process_audio_batch (some ffpath) fs mediaDir transcodeOf cancel
        [f1, f2, f3] speed).failed).length = 1 ∧
    (process_audio_batch (some ffpath) fs mediaDir transcodeOf cancel
        [f1, f2, f3] speed).total_processed = 1 ∧
    ∀ r ∈ (process_audio_batch (some ffpath) fs mediaDir transcodeOf cancel
        [f1, f2, f3] speed).successful ++
      (process_audio_batch (some ffpath) fs mediaDir transcodeOf cancel
        [f1, f2, f3] speed).failed,
      r.original_file = f1.filename := by
  have hc12 : ([f1.filename] : List (List Char)).contains f2.filename = false := by
    simp [List.contains_cons]
    exact fun h => h12 h.symm
  have hc13 : ([f2.filename, f1.filename] : List (List Char)).contains f3.filename = false := by
    simp [List.contains_cons]
    exact ⟨fun h => h23 h.symm, fun h => h13 h.symm⟩
  have hdedup : dedupFirst [] [f1, f2, f3] = [f1, f2, f3] := by
    rw [dedupFirst_cons]
    simp only [List.contains_nil, Bool.false_eq_true, if_false]
    rw [dedupFirst_cons, hc12]
    simp only [Bool.false_eq_true, if_false]
    rw [dedupFirst_cons, hc13]
    simp only [Bool.false_eq_true, if_false]
    rfl
  have hloop : batchLoop fs mediaDir transcodeOf speed cancel 0 [f1, f2, f3]
      = (if ((process_audio_file fs mediaDir (transcodeOf f1.filename) f1 speed).1).success
          then ([(process_audio_file fs mediaDir (transcodeOf f1.filename) f1 speed).1], [])
          else ([], [(process_audio_file fs mediaDir (transcodeOf f1.filename) f1 speed).1])) := by
    rw [batchLoop, hc0]
    simp only [Bool.false_eq_true, if_false]
    rw [batchLoop, hc1]
    simp only [if_true]
  have hbatch : process_audio_batch (some ffpath) fs mediaDir transcodeOf cancel
      [f1, f2, f3] speed
      = { successful := (batchLoop fs mediaDir transcodeOf speed cancel 0 [f1, f2, f3]).1,
          failed := (batchLoop fs mediaDir transcodeOf speed cancel 0 [f1, f2, f3]).2,
          total_processed :=
            (batchLoop fs mediaDir transcodeOf speed cancel 0 [f1, f2, f3]).1.length +
            (batchLoop fs mediaDir transcodeOf speed cancel 0 [f1, f2, f3]).2.length } := by
    unfold process_audio_batch
    rw [hdedup]
  rw [hbatch]
  simp only
  rw [hloop]
  split
  · refine ⟨rfl, rfl, ?_⟩
    intro r hr
    have : r = (process_audio_file fs mediaDir (transcodeOf f1.filename) f1 speed).1 := by
      simpa using hr
    rw [this]
    exact process_audio_file_original fs mediaDir (transcodeOf f1.filename) f1 speed
  · refine ⟨rfl, rfl, ?_⟩
    intro r hr
    have : r = (process_audio_file fs mediaDir (transcodeOf f1.filename) f1 speed).1 := by
      simpa using hr
    rw [this]
    exact process_audio_file_original fs mediaDir (transcodeOf f1.filename) f1 speed

/-- C7 witness: three distinct concrete references, cancellation right
after the first item. -/
theorem c7_witness :
    afA.filename ≠ afB.filename ∧ afA.filename ≠ afC.filename ∧
      afB.filename ≠ afC.filename ∧
    (fun n => decide (1 ≤ n)) 0 = false ∧ (fun n => decide (1 ≤ n)) 1 = true ∧
    (((process_audio_batch (some "ffmpeg".data) (fun _ => true) ['m']
        (fun _ => (true, none)) (fun n => decide (1 ≤ n)) [afA, afB, afC] 1).successful ++
      (process_audio_batch (some "ffmpeg".data) (fun _ => true) ['m']
        (fun _ => (true, none)) (fun n => decide (1 ≤ n)) [afA, afB, afC] 1).failed).length = 1 ∧
      (process_audio_batch (some "ffmpeg".data) (fun _ => true) ['m']
        (fun _ => (true, none)) (fun n => decide (1 ≤ n)) [afA, afB, afC] 1).total_processed = 1 ∧
      ∀ r ∈ (process_audio_batch (some "ffmpeg".data) (fun _ => true) ['m']
        (fun _ => (true, none)) (fun n => decide (1 ≤ n)) [afA, afB, afC] 1).successful ++
        (process_audio_batch (some "ffmpeg".data) (fun _ => true) ['m']
          (fun _ => (true, none)) (fun n => decide (1 ≤ n)) [afA, afB, afC] 1).failed,
        r.original_file = afA.filename) :=
  ⟨by decide, by decide, by decide, rfl, rfl,
    c7_thm_cancel "ffmpeg".data (fun _ => true) ['m'] (fun _ => (true, none)) 1
      afA afB afC (fun n => decide (1 ≤ n)) (by decide) (by decide) (by decide) rfl rfl⟩

/-- C8 (amended): when the input file exists and the target output file
already exists before processing, `process_audio_file` returns success
carrying the derived new filename without invoking the external
transcoder (zero FFmpeg invocations). -/
theorem c8_thm_idempotent (fs : List Char → Bool) (mediaDir : List Char)
    (transcode : Bool × Option (List Char)) (af : AudioFile) (speed : ℚ)
    (hin : fs (mediaDir ++ '/' :: af.filename) = true)
    (hout : fs (mediaDir ++ '/' :: generate_speed_filename af.filename speed) = true) :
    process_audio_file fs mediaDir transcode af speed
      = ({ success := true, original_file := af.filename,
           new_file := some (generate_speed_filename af.filename speed) }, 0) := by
  unfold process_audio_file
  rw [hin, hout]
  simp

/-- C8 witness: all paths exist. -/
theorem c8_witness :
    (fun (_ : List Char) => true) (['m'] ++ '/' :: afA.filename) = true ∧
    (fun (_ : List Char) => true)
        (['m'] ++ '/' :: generate_speed_filename afA.filename 1) = true ∧
    process_audio_file (fun _ => true) ['m'] (true, none) afA 1
      = ({ success := true, original_file := afA.filename,
           new_file := some (generate_speed_filename afA.filename 1) }, 0) :=
  ⟨rfl, rfl, c8_thm_idempotent (fun _ => true) ['m'] (true, none) afA 1 rfl rfl⟩

lemma gen_amp3_sixFifths :
    generate_speed_filename "a.mp3".data (6/5) = "a_1.2x.mp3".data := by
  simp only [generate_speed_filename, genBase, fmt1_sixFifths,
    show findSpeedSuffixRev "a.mp3".data.reverse = none from by decide,
    show splitext "a.mp3".data = ("a".data, ".mp3".data) from by decide]
  rfl

/-- C8 (counterexample): an audio file whose target output path exists but
whose input file is missing is reported as a failure (`File not found`),
not as a success — the input-existence check runs first, so the claim does
not hold for every file whose output already exists. -/
theorem c8_cex_missing_input :
    (fun p => !(p = ('m' :: '/' :: "a.mp3".data)))
        ('m' :: '/' :: generate_speed_filename "a.mp3".data (6/5)) = true ∧
    ((process_audio_file (fun p => !(p = ('m' :: '/' :: "a.mp3".data))) ['m']
        (true, none) afA (6/5)).1).success = false := by
  constructor
  · rw [gen_amp3_sixFifths]
    decide
  · rfl

/-! ### The card processor (`src/core/card_processor.py`) -/

/-- `CardUpdate` (`src/core/card_processor.py` lines 10-17). -/
structure CardUpdate where
  card_id : ℕ
  note_id : ℕ
  field_index : ℕ
  old_tag : List Char
  new_tag : List Char
deriving DecidableEq

/-- `UndoRecord` (lines 20-24): the applied updates plus the
original-to-new filename mapping. -/
structure UndoRecord where
  card_updates : List CardUpdate := []
  processed_files : List (List Char × List Char) := []
deriving DecidableEq

/-- Anki's note store (`mw.col`), modelled as an association list from
note id to the note's field texts. -/
abbrev Collection := List (ℕ × List (List Char))

/-- `mw.col.get_note(nid).fields` (the claims only involve note ids
present in the collection; a missing id yields no fields). -/
def getNote (col : Collection) (nid : ℕ) : List (List Char) :=
  (col.lookup nid).getD []

/-- `mw.col.update_note`: store back the fields of note `nid`. -/
def updateNote (col : Collection) (nid : ℕ) (fields : List (List Char)) : Collection :=
  col.map (fun p => if p.1 = nid then (nid, fields) else p)

/-- Python's `s.replace(pat, rep)` (all occurrences, non-overlapping, left
to right), written with explicit fuel so that it is structural; any
`fuel ≥ s.length` computes the replacement (the tags used as patterns are
never empty). -/
def replaceAllAux (pat rep : List Char) : ℕ → List Char → List Char
  | 0, s => s
  | _ + 1, [] => []
  | fuel + 1, c :: rest =>
    if pat.isPrefixOf (c :: rest) then
      rep ++ replaceAllAux pat rep fuel ((c :: rest).drop pat.length)
    else c :: replaceAllAux pat rep fuel rest

/-- `s.replace(pat, rep)`. -/
def replaceAll (s pat rep : List Char) : List Char :=
  replaceAllAux pat rep s.length s

/-- The insertion-ordered grouping dict `note_updates` built by
`apply_card_updates`/`revert_card_updates` (lines 66-70 and 108-112):
append the update to the bucket of its note id, buckets in first-seen
order. -/
def dictAppend (d : List (ℕ × List CardUpdate)) (k : ℕ) (u : CardUpdate) :
    List (ℕ × List CardUpdate) :=
  match d with
  | [] => [(k, [u])]
  | (k2, us) :: rest =>
    if k2 = k then (k2, us ++ [u]) :: rest else (k2, us) :: dictAppend rest k u

/-- `note_updates` for a whole update list. -/
def groupByNote (updates : List CardUpdate) : List (ℕ × List CardUpdate) :=
  updates.foldl (fun d u => dictAppend d u.note_id u) []

/-- One field rewrite of `apply_card_updates` (lines 78-84):
`note.fields[i] = note.fields[i].replace(old_tag, new_tag)`. -/
def applyTagToFields (fields : List (List Char)) (u : CardUpdate) : List (List Char) :=
  fields.set u.field_index (replaceAll (fields.getD u.field_index []) u.old_tag u.new_tag)

/-- One field rewrite of `revert_card_updates` (lines 117-120): swap old
and new. -/
def revertTagInFields (fields : List (List Char)) (u : CardUpdate) : List (List Char) :=
  fields.set u.field_index (replaceAll (fields.getD u.field_index []) u.new_tag u.old_tag)

/-- `tag[7:-1]`, the filename inside `[sound:...]` (lines 86-88). -/
def tagInner (t : List Char) : List Char := (t.drop 7).dropLast

/-- Insertion with overwrite, for `file_mapping` (line 89). -/
def upsert (d : List (List Char × List Char)) (k v : List Char) :
    List (List Char × List Char) :=
  match d with
  | [] => [(k, v)]
  | (k2, v2) :: rest => if k2 = k then (k2, v) :: rest else (k2, v2) :: upsert rest k v

/-- `apply_card_updates` (`src/core/card_processor.py` lines 57-98): group
the updates by note, apply each group's replacements to that note's
fields, save the note, and collect the `UndoRecord`. -/
def apply_card_updates (col : Collection) (updates : List CardUpdate) :
    Collection × UndoRecord :=
  let groups := groupByNote updates
  let applied := groups.foldl (fun acc g => acc ++ g.2) []
  (groups.foldl
      (fun c g => updateNote c g.1 (g.2.foldl applyTagToFields (getNote c g.1))) col,
    { card_updates := applied,
      processed_files := applied.foldl
        (fun d u => upsert d (tagInner u.old_tag) (tagInner u.new_tag)) [] })

/-- `revert_card_updates` (lines 101-124): group the recorded updates by
note and replace each `new_tag` back with its `old_tag`. -/
def revert_card_updates (col : Collection) (undo : UndoRecord) : Collection :=
  (groupByNote undo.card_updates).foldl
    (fun c g => updateNote c g.1 (g.2.foldl revertTagInFields (getNote c g.1))) col

/-- Number of positions at which `pat` occurs in `s`. -/
def occCount (pat s : List Char) : ℕ :=
  (List.range (s.length + 1)).countP (fun i => pat.isPrefixOf (s.drop i))

/-! ### Lemmas: `str.replace` and the revert claim -/

lemma isPrefixOf_append_self (l t : List Char) : l.isPrefixOf (l ++ t) = true := by
  induction l with
  | nil => simp [List.isPrefixOf]
  | cons c r ih => simp [List.isPrefixOf, ih]

lemma isPrefixOf_nil_false {pat : List Char} (h : pat ≠ []) :
    pat.isPrefixOf [] = false := by
  cases pat with
  | nil => exact absurd rfl h
  | cons c r => rfl

lemma replaceAllAux_fuel (pat rep : List Char) (hpat : pat ≠ []) :
    ∀ (fuel1 : ℕ) (s : List Char) (fuel2 : ℕ), s.length ≤ fuel1 → s.length ≤ fuel2 →
      replaceAllAux pat rep fuel1 s = replaceAllAux pat rep fuel2 s := by
  intro fuel1
  induction fuel1 with
  | zero =>
    intro s fuel2 h1 _
    have hs : s = [] := by
      cases s with
      | nil => rfl
      | cons c r => simp at h1
    subst hs
    cases fuel2 with
    | zero => rfl
    | succ f2 => rfl
  | succ f1 ih =>
    intro s fuel2 h1 h2
    cases s with
    | nil =>
      cases fuel2 with
      | zero => rfl
      | succ f2 => rfl
    | cons c rest =>
      cases fuel2 with
      | zero => simp at h2
      | succ f2 =>
        rw [replaceAllAux, replaceAllAux]
        have hp : 1 ≤ pat.length := by
          cases pat with
          | nil => exact absurd rfl hpat
          | cons a b => simp
        have hb : (c :: rest).length = rest.length + 1 := rfl
        by_cases hpre : pat.isPrefixOf (c :: rest) = true
        · rw [if_pos hpre, if_pos hpre]
          congr 1
          apply ih
          · simp only [List.length_drop]
            omega
          · simp only [List.length_drop]
            omega
        · rw [if_neg hpre, if_neg hpre]
          congr 1
          apply ih
          · omega
          · omega

lemma replaceAllAux_no_occ (pat rep : List Char) (_hpat : pat ≠ []) :
    ∀ (fuel : ℕ) (s : List Char),
      (∀ i, pat.isPrefixOf (s.drop i) = false) →
      replaceAllAux pat rep fuel s = s := by
  intro fuel
  induction fuel with
  | zero => intro s _; rfl
  | succ fuel ih =>
    intro s h
    cases s with
    | nil => rfl
    | cons c rest =>
      rw [replaceAllAux]
      have h0 : pat.isPrefixOf (c :: rest) = false := by simpa using h 0
      rw [if_neg (by simp [h0])]
      congr 1
      refine ih rest (fun i => ?_)
      simpa using h (i + 1)

lemma replaceAllAux_boundary (pat rep post : List Char) (hpat : pat ≠ []) :
    ∀ (pre : List Char) (fuel : ℕ), (pre ++ pat ++ post).length ≤ fuel →
      (∀ i, i < pre.length → pat.isPrefixOf ((pre ++ pat ++ post).drop i) = false) →
      replaceAllAux pat rep fuel (pre ++ pat ++ post)
        = pre ++ rep ++ replaceAllAux pat rep post.length post := by
  intro pre
  induction pre with
  | nil =>
    intro fuel hf _
    simp only [List.nil_append] at hf ⊢
    have hp : 1 ≤ pat.length := by
      cases pat with
      | nil => exact absurd rfl hpat
      | cons a b => simp
    cases fuel with
    | zero =>
      exfalso
      simp only [List.length_append] at hf
      omega
    | succ f =>
      cases hP : pat with
      | nil => exact absurd hP hpat
      | cons p pt =>
        rw [← hP]
        rw [show pat ++ post = pat.headI :: (pat.tail ++ post) by
          rw [hP]
          rfl]
        rw [replaceAllAux]
        rw [if_pos (by
          rw [show pat.headI :: (pat.tail ++ post) = pat ++ post by rw [hP]; rfl]
          exact isPrefixOf_append_self pat post)]
        rw [show (pat.headI :: (pat.tail ++ post)).drop pat.length
            = (pat ++ post).drop pat.length by rw [hP]; rfl]
        rw [List.drop_left]
        congr 1
        apply replaceAllAux_fuel pat rep hpat
        · simp only [List.length_append] at hf
          omega
        · exact le_rfl
  | cons c pre2 ih =>
    intro fuel hf h
    cases fuel with
    | zero =>
      exfalso
      simp at hf
    | succ f =>
      rw [show (c :: pre2) ++ pat ++ post = c :: (pre2 ++ pat ++ post) by simp]
      rw [replaceAllAux]
      have h0 : pat.isPrefixOf (c :: (pre2 ++ pat ++ post)) = false := by
        have := h 0 (by simp)
        simpa using this
      rw [if_neg (by rw [h0]; simp)]
      rw [ih f (by
          have hb : ((c :: pre2) ++ pat ++ post).length
              = (pre2 ++ pat ++ post).length + 1 := by simp
          omega)
        (fun i hi => by simpa using h (i + 1) (by simpa using hi))]
      rfl

lemma replaceAll_single (pre pat rep post : List Char) (hpat : pat ≠ [])
    (hpre : ∀ i, i < pre.length → pat.isPrefixOf ((pre ++ pat ++ post).drop i) = false)
    (hpost : ∀ i, pat.isPrefixOf (post.drop i) = false) :
    replaceAll (pre ++ pat ++ post) pat rep = pre ++ rep ++ post := by
  unfold replaceAll
  rw [replaceAllAux_boundary pat rep post hpat pre _ le_rfl hpre]
  rw [replaceAllAux_no_occ pat rep hpat post.length post hpost]

lemma getD_set_self (l : List (List Char)) (i : ℕ) (v : List Char) (hi : i < l.length) :
    (l.set i v).getD i [] = v := by
  induction l generalizing i with
  | nil => simp at hi
  | cons a t ih =>
    cases i with
    | zero => rfl
    | succ n =>
      simp only [List.set_cons_succ, List.getD_cons_succ]
      exact ih n (by simpa using hi)

lemma set_getD_self (l : List (List Char)) (i : ℕ) (hi : i < l.length) :
    l.set i (l.getD i []) = l := by
  induction l generalizing i with
  | nil => rfl
  | cons a t ih =>
    cases i with
    | zero => rfl
    | succ n =>
      simp only [List.getD_cons_succ, List.set_cons_succ]
      rw [ih n (by simpa using hi)]

lemma lookup_single (nid : ℕ) (fields : List (List Char)) :
    getNote [(nid, fields)] nid = fields := by
  unfold getNote
  simp [List.lookup]

lemma updateNote_single (nid : ℕ) (fields X : List (List Char)) :
    updateNote [(nid, fields)] nid X = [(nid, X)] := by
  unfold updateNote
  simp

/-- C5 (amended): for a committed ledger over a record whose field text is
`pre ++ old ++ post` with a single occurrence of the old tag (none in
`pre`, crossing the border, or in `post`) and no occurrence of the new tag
anywhere (including across the borders of the replacement), `revert`
restores the field text byte-for-byte: reverting the committed collection
yields the original collection. -/
theorem c5_thm_revert_roundtrip (nid cid i : ℕ) (fields : List (List Char))
    (pre old new post : List Char)
    (hi : i < fields.length) (hfield : fields.getD i [] = pre ++ old ++ post)
    (hold : old ≠ []) (hnew : new ≠ [])
    (h1 : ∀ j, j < pre.length → old.isPrefixOf ((pre ++ old ++ post).drop j) = false)
    (h2 : ∀ j, j < post.length → old.isPrefixOf (post.drop j) = false)
    (h3 : ∀ j, j < pre.length → new.isPrefixOf ((pre ++ new ++ post).drop j) = false)
    (h4 : ∀ j, j < post.length → new.isPrefixOf (post.drop j) = false) :
    revert_card_updates
        (apply_card_updates [(nid, fields)] [⟨cid, nid, i, old, new⟩]).1
        (apply_card_updates [(nid, fields)] [⟨cid, nid, i, old, new⟩]).2
      = [(nid, fields)] := by
  have h2u : ∀ j, old.isPrefixOf (post.drop j) = false := fun j => by
    by_cases hj : j < post.length
    · exact h2 j hj
    · rw [List.drop_eq_nil_of_le (by omega)]
      exact isPrefixOf_nil_false hold
  have h4u : ∀ j, new.isPrefixOf (post.drop j) = false := fun j => by
    by_cases hj : j < post.length
    · exact h4 j hj
    · rw [List.drop_eq_nil_of_le (by omega)]
      exact isPrefixOf_nil_false hnew
  have hrepl1 : replaceAll (pre ++ old ++ post) old new = pre ++ new ++ post :=
    replaceAll_single pre old new post hold h1 h2u
  have hrepl2 : replaceAll (pre ++ new ++ post) new old = pre ++ old ++ post :=
    replaceAll_single pre new old post hnew h3 h4u
  have happly : apply_card_updates [(nid, fields)] [⟨cid, nid, i, old, new⟩]
      = ([(nid, fields.set i (pre ++ new ++ post))],
         { card_updates := [⟨cid, nid, i, old, new⟩],
           processed_files := [(tagInner old, tagInner new)] }) := by
    unfold apply_card_updates groupByNote applyTagToFields
    simp only [List.foldl_cons, List.foldl_nil]
    unfold dictAppend
    simp only [List.foldl_cons, List.foldl_nil, List.nil_append]
    unfold upsert
    rw [lookup_single]
    rw [hfield, hrepl1, updateNote_single]
  rw [happly]
  unfold revert_card_updates groupByNote revertTagInFields
  simp only [List.foldl_cons, List.foldl_nil]
  unfold dictAppend
  simp only [List.foldl_cons, List.foldl_nil]
  rw [lookup_single]
  rw [getD_set_self _ _ _ hi, hrepl2, List.set_set, updateNote_single]
  rw [← hfield, set_getD_self fields i hi]

/-- C5 witness: the spec's example field, one occurrence of the old tag,
new tag absent. -/
theorem c5_witness :
    (0 : ℕ) < (["x[sound:a.mp3]y".data] : List (List Char)).length ∧
    (["x[sound:a.mp3]y".data] : List (List Char)).getD 0 []
      = "x".data ++ "[sound:a.mp3]".data ++ "y".data ∧
    revert_card_updates
        (apply_card_updates [(1, ["x[sound:a.mp3]y".data])]
          [⟨1, 1, 0, "[sound:a.mp3]".data, "[sound:a_1.2x.mp3]".data⟩]).1
        (apply_card_updates [(1, ["x[sound:a.mp3]y".data])]
          [⟨1, 1, 0, "[sound:a.mp3]".data, "[sound:a_1.2x.mp3]".data⟩]).2
      = [(1, ["x[sound:a.mp3]y".data])] :=
  ⟨by decide, by decide,
    c5_thm_revert_roundtrip 1 1 0 ["x[sound:a.mp3]y".data]
      "x".data "[sound:a.mp3]".data "[sound:a_1.2x.mp3]".data "y".data
      (by decide) (by decide) (by decide) (by decide)
      (by decide) (by decide) (by decide) (by decide)⟩

/-- C5 (counterexample): a field containing a single occurrence of the old
tag but also one copy of the new tag: commit rewrites the old tag, and
revert then replaces BOTH copies of the new tag, so the field is not
restored byte-for-byte. -/
theorem c5_cex_new_tag_present :
    occCount "[sound:a.mp3]".data "[sound:a_1.2x.mp3][sound:a.mp3]".data = 1 ∧
    revert_card_updates
        (apply_card_updates [(1, ["[sound:a_1.2x.mp3][sound:a.mp3]".data])]
          [⟨1, 1, 0, "[sound:a.mp3]".data, "[sound:a_1.2x.mp3]".data⟩]).1
        (apply_card_updates [(1, ["[sound:a_1.2x.mp3][sound:a.mp3]".data])]
          [⟨1, 1, 0, "[sound:a.mp3]".data, "[sound:a_1.2x.mp3]".data⟩]).2
      ≠ [(1, ["[sound:a_1.2x.mp3][sound:a.mp3]".data])] := by
  constructor
  · decide
  · decide

end AudioSpeed
